import Mathlib

/-!
# Verification of the ApolloBackend combination-tracking core

Shallow embedding of the combination store, the combination generator
(`utils/combinations_generator.py`), the harvest driver
(`api/management/commands/fetch_apollo_data.py`), the search wrapper
(`utils/apollo_fetcher.py`) and the by-id read API (`api/models.py`,
`api/views.py`).

The Mongo `combinations` collection is modelled as a `List Combination`
in store iteration order.  Single-document Mongo operations become
functions on that list:
* `UpdateOne(filter, {"$setOnInsert": doc}, upsert=True)` under the unique
  index on `(location, industry_name)` (created in
  `init_mongodb.py`) becomes `upsertOne`: a no-op when a document with the
  key exists, an append otherwise;
* `update_one(filter, {"$set": fields})` becomes
  `update_combination_status`, which rewrites the first matching document;
* `update_many({"status": "failed"}, {"$set": ...})` becomes `resetFailed`.

Wall-clock values (`timezone.now()`) are threaded as `Nat` parameters, and
the outcome of the external Apollo search (the network) is an oracle
`SearchResult` supplied per combination.
-/

/-- The four values of the `status` field of a combination document. -/
inductive Status where
  | pending
  | in_progress
  | completed
  | failed
deriving DecidableEq, Repr

/-- One document of the `combinations` collection (shape from
`generate_combinations` in `utils/combinations_generator.py`).
`results_count` is optional: it is only ever added by a `$set` that
includes it. -/
structure Combination where
  location : String
  employee_ranges : String
  industry_id : String
  industry_name : String
  status : Status
  results_count : Option Nat
  created_at : Nat
  updated_at : Nat
deriving DecidableEq, Repr

/-- The uniqueness key of the collection: the unique index
`[("location", 1), ("industry_name", 1)]` from `init_mongodb.py`. -/
def comboKey (c : Combination) : String × String :=
  (c.location, c.industry_name)

/-- The Mongo filter `{"location": l, "industry_name": i}` as a predicate
on a document. -/
def matchesKey (l i : String) (c : Combination) : Bool :=
  decide (c.location = l) && decide (c.industry_name = i)

/-- Whether some document with key `(l, i)` exists in the store. -/
def hasKey (s : List Combination) (l i : String) : Bool :=
  s.any (matchesKey l i)

/-- `find_one({"location": l, "industry_name": i})`: first document
matching the key, in store order. -/
def findCombo (s : List Combination) (l i : String) : Option Combination :=
  s.find? (matchesKey l i)

/-- `count_documents({"status": st})`. -/
def countStatus (s : List Combination) (st : Status) : Nat :=
  (s.filter (fun d => decide (d.status = st))).length

/-- Number of documents whose key is `(l, i)`. -/
def countKey (s : List Combination) (l i : String) : Nat :=
  (s.filter (matchesKey l i)).length

/-- `UpdateOne({"location": .., "industry_name": ..},
{"$setOnInsert": c}, upsert=True)` under the unique `(location,
industry_name)` index: if a document with the key exists nothing changes,
otherwise `c` is inserted.  `$setOnInsert` sets fields only on insert, so
an existing document is never rewritten. -/
def upsertOne (s : List Combination) (c : Combination) : List Combination :=
  if hasKey s c.location c.industry_name then s else s ++ [c]

/-- A bulk write of conditional inserts, applied document by document. -/
def upsertAll (s : List Combination) (cs : List Combination) : List Combination :=
  cs.foldl upsertOne s

/-- Sanity: inserting the same key twice keeps one document. -/
example :
    (upsertAll []
      [⟨"NYC", "r", "t1", "Tech", .pending, none, 0, 0⟩,
       ⟨"NYC", "r", "t1", "Tech", .pending, none, 1, 1⟩]).length = 1 := by
  decide

/-! ## Combination generator (`utils/combinations_generator.py`) -/

/-- Fuel-indexed splitting of a list into consecutive runs of `max n 1`
elements (structural recursion so that concrete runs reduce in the
kernel); `chunksOf` instantiates the fuel with the list length, which
always suffices. -/
def chunksOfAux (n : Nat) : Nat → List α → List (List α)
  | _, [] => []
  | 0, a :: t => [a :: t]
  | fuel + 1, a :: t => (a :: t).take (max n 1) :: chunksOfAux n fuel ((a :: t).drop (max n 1))

/-- The batch list built by the generation loop: an append to
`current_batch` flushed every time its length reaches the batch size,
plus the final partial batch — consecutive runs of `n` documents. -/
def chunksOf (n : Nat) (l : List α) : List (List α) :=
  chunksOfAux n l.length l

/-- `bulk_write(batches, ordered=False)` driven by the generation loop:
batch `i` either succeeds wholly (its conditional inserts are applied in
order) or raises, in which case the loop logs the error, drops the batch
and continues with the next one.  `f i = true` means batch `i` raises. -/
def runBatches (f : Nat → Bool) : Nat → List Combination → List (List Combination) → List Combination
  | _, s, [] => s
  | i, s, b :: rest =>
      if f i then runBatches f (i + 1) s rest
      else runBatches f (i + 1) (upsertAll s b) rest

/-- The batches whose `bulk_write` does not raise. -/
def survivingBatches (f : Nat → Bool) : Nat → List (List Combination) → List (List Combination)
  | _, [] => []
  | i, b :: rest =>
      if f i then survivingBatches f (i + 1) rest
      else b :: survivingBatches f (i + 1) rest

/-- The document built for one `(location, size, industry)` triple of the
product, with `industry_id = industry_tags[industry]`. -/
def mkCombination (location size industry_name industry_id : String) (now : Nat) : Combination :=
  { location := location
    employee_ranges := size
    industry_id := industry_id
    industry_name := industry_name
    status := .pending
    results_count := none
    created_at := now
    updated_at := now }

/-- `employee_ranges = ["1-10, 10-20, 20-50, 50-100, 100-200"]`:
a single descriptive string, fixed in `generate_combinations`. -/
def employeeRangesList : List String :=
  ["1-10, 10-20, 20-50, 50-100, 100-200"]

/-- `batch_size = 100000` — hardcoded inside `generate_combinations`;
the function takes no batch-size argument. -/
def genBatchSize : Nat := 100000

/-- `itertools.product(locations, employee_ranges, apollo_industries)`
mapped to documents, in product order.  `tags` is the items list of the
`industry_tags` dict (name, id). -/
def genCombos (locations eranges : List String) (tags : List (String × String)) (now : Nat) :
    List Combination :=
  locations.flatMap fun l =>
    eranges.flatMap fun sz =>
      tags.map fun t => mkCombination l sz t.1 t.2 now

/-- The stats dict returned by `generate_combinations`. -/
structure GenStats where
  total : Nat
  pending : Nat
  completed : Nat
  failed : Nat
  in_progress : Nat
  new_added : Nat
  skipped_generation : Bool
deriving DecidableEq, Repr

/-- `generate_combinations()` from `utils/combinations_generator.py`:
if the current document count equals
`total_potential = len(locations) * len(employee_ranges) * len(industries)`
generation is skipped and the current per-status counts are returned;
otherwise every triple of the product is turned into a conditional insert
(`$setOnInsert` upsert keyed on `(location, industry_name)`), buffered in
batches of `genBatchSize` and bulk-written unordered, dropping batches
whose write raises.  `new_added` accumulates the `upserted_count` of the
successful bulk writes, which equals the store's length growth. -/
def generate_combinations (locations : List String) (industry_tags : List (String × String))
    (now : Nat) (batchFails : Nat → Bool) (store : List Combination) :
    List Combination × GenStats :=
  let total_potential := locations.length * employeeRangesList.length * industry_tags.length
  if store.length = total_potential then
    (store,
      { total := total_potential
        pending := countStatus store .pending
        completed := countStatus store .completed
        failed := countStatus store .failed
        in_progress := countStatus store .in_progress
        new_added := 0
        skipped_generation := true })
  else
    let combos := genCombos locations employeeRangesList industry_tags now
    let store2 := runBatches batchFails 0 store (chunksOf genBatchSize combos)
    (store2,
      { total := store2.length
        pending := countStatus store2 .pending
        completed := countStatus store2 .completed
        failed := countStatus store2 .failed
        in_progress := countStatus store2 .in_progress
        new_added := store2.length - store.length
        skipped_generation := false })

/-- `n` consecutive runs of `generate_combinations` starting from the
empty collection; run `k` happens at time `nows k` with batch-failure
schedule `fls k`. -/
def genIter (locations : List String) (industry_tags : List (String × String))
    (nows : Nat → Nat) (fls : Nat → Nat → Bool) : Nat → List Combination
  | 0 => []
  | n + 1 =>
      (generate_combinations locations industry_tags (nows n) (fls n)
        (genIter locations industry_tags nows fls n)).1

/-- The `(location, industry_name)` keys of the enumerated cross-product
(the employee-range dimension does not enter the key). -/
def enumKeys (locations : List String) (tags : List (String × String)) :
    List (String × String) :=
  locations.flatMap fun l => tags.map fun t => (l, t.1)

example :
    (generate_combinations ["NYC", "LA"] [("Tech", "t1"), ("Health", "h1")] 0
      (fun _ => false) []).1.length = 4 := by decide

example :
    (generate_combinations ["NYC"] [("Tech", "t1")] 5 (fun _ => false)
      [⟨"NYC", "r", "t1", "Tech", .completed, some 7, 0, 1⟩]).2.skipped_generation = true := by
  decide

/-! ## Status transitions (`update_combination_status`, `--reset-failed`) -/

/-- The `$set` document built by `update_combination_status`: always
`status` and `updated_at`, plus `results_count` only when one was passed
(`if results_count is not None`).  All other fields are untouched. -/
def applySet (c : Combination) (st : Status) (rc : Option Nat) (now : Nat) : Combination :=
  { c with
    status := st
    updated_at := now
    results_count := match rc with | none => c.results_count | some n => some n }

/-- `update_combination_status(location, industry_name, status,
results_count)` from `utils/combinations_generator.py`: a single
`update_one` on the key filter, so the first matching document (unique
under the index) receives the `$set`; with no match nothing happens. -/
def update_combination_status (s : List Combination) (l i : String) (st : Status)
    (rc : Option Nat) (now : Nat) : List Combination :=
  match s with
  | [] => []
  | c :: rest =>
      if matchesKey l i c then applySet c st rc now :: rest
      else c :: update_combination_status rest l i st rc now

/-- Effect of the reset `$set` on one document: only `failed` documents
match the filter and receive `status = pending` and a fresh
`updated_at`. -/
def resetDoc (now : Nat) (c : Combination) : Combination :=
  if c.status = Status.failed then { c with status := .pending, updated_at := now } else c

/-- The `--reset-failed` branch of `Command.handle`
(`fetch_apollo_data.py`): `update_many({"status": "failed"},
{"$set": {"status": "pending", "updated_at": now}})`. -/
def resetFailed (s : List Combination) (now : Nat) : List Combination :=
  s.map (resetDoc now)

/-! ## Search wrapper and harvest driver -/

/-- Outcome of the external Apollo search for one combination: the
pagination loop either completes with a total count of discovered
organizations (a sum of page lengths, hence a `Nat`), or some step raises
an exception.  All exceptions this code can raise are `Exception`
instances — in particular `sys.exit(1)` inside
`fetch_organization_details` raises `NameError` because `sys` is never
imported in `apollo_fetcher.py`, so even that path is an ordinary
exception for the `except Exception` handlers. -/
inductive SearchResult where
  | ok (n : Nat)
  | err
deriving DecidableEq, Repr

/-- `search_apollo_and_save_to_mongodb` from `utils/apollo_fetcher.py`,
projected onto the combinations collection: first `$set` the status to
`in_progress`; then, if the search completes with count `n`, `$set`
`completed` with `results_count = n` and return `n`; if the search
raises, `$set` `failed` (without `results_count`) and re-raise (result
`none`). -/
def search_apollo_and_save_to_mongodb (store : List Combination) (location industry_name : String)
    (outcome : SearchResult) (t1 t2 : Nat) : List Combination × Option Nat :=
  let s1 := update_combination_status store location industry_name .in_progress none t1
  match outcome with
  | .ok n => (update_combination_status s1 location industry_name .completed (some n) t2, some n)
  | .err => (update_combination_status s1 location industry_name .failed none t2, none)

/-- One iteration of the `for i, combo in enumerate(filtered_combinations)`
loop of `Command.handle`: call the search wrapper inside `try`; when it
raises (`search` result `none`) the handler sets the status to `failed`
once more and the loop continues. -/
def driverStep (store : List Combination) (c : Combination) (outcome : SearchResult)
    (clock : Nat) : List Combination :=
  let r := search_apollo_and_save_to_mongodb store c.location c.industry_name outcome clock (clock + 1)
  match r.2 with
  | some _ => r.1
  | none => update_combination_status r.1 c.location c.industry_name .failed none (clock + 2)

/-- The processing loop of `Command.handle` over the selected queue, in
selection order; `oracle` gives the external outcome per
`(location, industry_name)`. -/
def handleLoop (oracle : String → String → SearchResult) :
    List Combination → List Combination → Nat → List Combination
  | store, [], _ => store
  | store, c :: rest, clock =>
      handleLoop oracle (driverStep store c (oracle c.location c.industry_name) clock) rest
        (clock + 3)

/-! ## Work selector (`Command.handle`, query construction) -/

/-- `pat.isPrefixOf s` written out on characters. -/
def leadsWith : List Char → List Char → Bool
  | [], _ => true
  | _ :: _, [] => false
  | a :: as, b :: bs => decide (a = b) && leadsWith as bs

/-- Occurrence of `pat` as a contiguous run inside `s`. -/
def containsSub (pat : List Char) : List Char → Bool
  | [] => leadsWith pat []
  | b :: bs => leadsWith pat (b :: bs) || containsSub pat bs

/-- The `{"$regex": pat, "$options": "i"}` filter of `Command.handle`.
For a pattern free of regex metacharacters (the spec's reading) this is
case-insensitive substring containment, which is how the embedding
models it. -/
def containsCI (s pat : String) : Bool :=
  containsSub pat.toLower.toList s.toLower.toList

/-- The Mongo query dict built by `Command.handle` lines 80–98: status
equals the `--status` value if given, else `{"$in": ["pending",
"failed"]}`; `--location` and `--industry` add case-insensitive
pattern filters. -/
def matchesQuery (statusOpt : Option Status) (locOpt indOpt : Option String)
    (c : Combination) : Bool :=
  (match statusOpt with
   | some st => decide (c.status = st)
   | none => decide (c.status = Status.pending) || decide (c.status = Status.failed)) &&
  (match locOpt with
   | some pat => containsCI c.location pat
   | none => true) &&
  (match indOpt with
   | some pat => containsCI c.industry_name pat
   | none => true)

/-- `find(query)` then `filtered_combinations[:limit]` when
`limit and limit > 0 and limit < len(filtered_combinations)`
(`Command.handle` lines 100–112).  The projection to the four dispatch
fields is dropped: the driver reads only those fields. -/
def selectCombinations (store : List Combination) (statusOpt : Option Status)
    (locOpt indOpt : Option String) (limitOpt : Option Int) : List Combination :=
  let filtered := store.filter (matchesQuery statusOpt locOpt indOpt)
  match limitOpt with
  | none => filtered
  | some l =>
      if 0 < l ∧ l < (filtered.length : Int) then filtered.take l.toNat else filtered

/-! ## The management command (`Command.handle` end to end) -/

/-- The parsed CLI options of `fetch_apollo_data` (`add_arguments`).
`batch_size` is parsed with default `5000` but `Command.handle` never
reads it. -/
structure Options where
  location : Option String
  industry : Option String
  limit : Option Int
  cookies_file : String
  headers_file : String
  reset_failed : Bool
  status : Option Status
  skip_generation : Bool
  batch_size : Int

/-- Ambient inputs of a run: the filesystem (`os.path.exists`), the two
data files read by generation, the network oracle and the batch-failure
schedule, plus a base clock for `timezone.now()`. -/
structure HandleEnv where
  fileExists : String → Bool
  locations : List String
  industry_tags : List (String × String)
  oracle : String → String → SearchResult
  batchFails : Nat → Bool
  clock : Nat

/-- The pipeline of `Command.handle` after the cookies/headers existence
check: optional reset of failed combinations, optional generation,
selection, and the processing loop (skipped when nothing matches). -/
def handleAfterPrecheck (env : HandleEnv) (opts : Options) (store : List Combination) :
    List Combination :=
  let s1 := if opts.reset_failed then resetFailed store env.clock else store
  let s2 := if opts.skip_generation then s1
            else (generate_combinations env.locations env.industry_tags env.clock env.batchFails s1).1
  let items := selectCombinations s2 opts.status opts.location opts.industry opts.limit
  if items.length = 0 then s2 else handleLoop env.oracle s2 items (env.clock + 1)

/-- `Command.handle` of `fetch_apollo_data.py`: first the existence check
on the cookies and headers files — a missing file prints an error and
returns at once (flag `true`), before the reset, generation, selection or
processing code runs.  Otherwise the pipeline runs (flag `false`). -/
def Command_handle (env : HandleEnv) (opts : Options) (store : List Combination) :
    List Combination × Bool :=
  if env.fileExists opts.cookies_file = false then (store, true)
  else if env.fileExists opts.headers_file = false then (store, true)
  else (handleAfterPrecheck env opts store, false)

/-! ## Organization read API (`api/models.py`, `api/views.py`) -/

/-- A document of the `organization` collection, reduced to its Mongo id
(in 24-hex string form), its unique external id and an opaque payload. -/
structure OrgDoc where
  oid : String
  apollo_id : String
  payload : String
deriving DecidableEq, Repr

def isHexChar (c : Char) : Bool :=
  c.isDigit || (decide ('a' ≤ c) && decide (c ≤ 'f')) || (decide ('A' ≤ c) && decide (c ≤ 'F'))

/-- `bson.ObjectId(org_id)` succeeds exactly on 24-character hex strings
(the form arriving through the URL); anything else raises `InvalidId`. -/
def isValidObjectId (s : String) : Bool :=
  decide (s.length = 24) && s.toList.all isHexChar

namespace Organization

/-- `Organization.get_by_id` (`api/models.py` lines 24–30):
`find_one({"_id": ObjectId(org_id)})` wrapped in a bare
`try/except` returning `None` — an invalid id (or any other raise)
yields `None` instead of propagating. -/
def get_by_id (orgs : List OrgDoc) (org_id : String) : Option OrgDoc :=
  if isValidObjectId org_id then orgs.find? (fun o => o.oid.toLower == org_id.toLower)
  else none

/-- `Organization.update`: `update_one({"_id": ObjectId(org_id)},
{"$set": data})` (only reached by the view when the document exists). -/
def update (orgs : List OrgDoc) (org_id : String) (data : String) : List OrgDoc :=
  orgs.map fun o => if o.oid.toLower == org_id.toLower then { o with payload := data } else o

/-- `Organization.delete`: `delete_one({"_id": ObjectId(org_id)})`. -/
def delete (orgs : List OrgDoc) (org_id : String) : List OrgDoc :=
  orgs.filter fun o => !(o.oid.toLower == org_id.toLower)

end Organization

/-- The responses of `OrganizationDetailView`. -/
inductive ApiResponse where
  | ok (o : OrgDoc)
  | okData (data : String)
  | notFound
  | noContent
deriving DecidableEq, Repr

/-- `OrganizationDetailView.get`: 404 with an error body when the lookup
returns `None`, else the serialized document. -/
def detailView_get (orgs : List OrgDoc) (org_id : String) : ApiResponse :=
  match Organization.get_by_id orgs org_id with
  | none => .notFound
  | some o => .ok o

/-- `OrganizationDetailView.put` with serializer-valid data: 404 when the
lookup returns `None` (no write), else the update runs. -/
def detailView_put (orgs : List OrgDoc) (org_id : String) (data : String) :
    ApiResponse × List OrgDoc :=
  match Organization.get_by_id orgs org_id with
  | none => (.notFound, orgs)
  | some _ => (.okData data, Organization.update orgs org_id data)

/-- `OrganizationDetailView.delete`: 404 when the lookup returns `None`
(no deletion), else the delete runs with 204. -/
def detailView_delete (orgs : List OrgDoc) (org_id : String) :
    ApiResponse × List OrgDoc :=
  match Organization.get_by_id orgs org_id with
  | none => (.notFound, orgs)
  | some _ => (.noContent, Organization.delete orgs org_id)

/-! ## Basic lemmas about the store operations -/

lemma matchesKey_applySet (l i : String) (c : Combination) (st : Status) (rc : Option Nat)
    (now : Nat) : matchesKey l i (applySet c st rc now) = matchesKey l i c := rfl

lemma matchesKey_true_iff {l i : String} {c : Combination} :
    matchesKey l i c = true ↔ c.location = l ∧ c.industry_name = i := by
  simp [matchesKey]

/-- `update_one` rewrites exactly the first key match: looking the key up
afterwards sees the `$set` applied to the previous first match. -/
lemma findCombo_update_self (s : List Combination) (l i : String) (st : Status)
    (rc : Option Nat) (now : Nat) :
    findCombo (update_combination_status s l i st rc now) l i
      = (findCombo s l i).map fun d => applySet d st rc now := by
  induction s with
  | nil => simp [update_combination_status, findCombo]
  | cons c rest ih =>
    by_cases h : matchesKey l i c
    · simp [update_combination_status, h, findCombo, List.find?_cons_of_pos,
        matchesKey_applySet]
    · simp only [update_combination_status, h, if_false, Bool.false_eq_true]
      simpa [findCombo, List.find?_cons_of_neg, h] using ih

/-- `update_one` on key `(l, i)` leaves lookups of any other key
unchanged. -/
lemma findCombo_update_other {l i l2 i2 : String} (hne : ¬(l = l2 ∧ i = i2))
    (s : List Combination) (st : Status) (rc : Option Nat) (now : Nat) :
    findCombo (update_combination_status s l i st rc now) l2 i2 = findCombo s l2 i2 := by
  induction s with
  | nil => simp [update_combination_status]
  | cons c rest ih =>
    by_cases h : matchesKey l i c
    · have hc2 : matchesKey l2 i2 c = false := by
        rcases matchesKey_true_iff.mp h with ⟨h1, h2⟩
        by_contra hcon
        rcases matchesKey_true_iff.mp (by simpa using hcon) with ⟨h3, h4⟩
        exact hne ⟨h1 ▸ h3.symm ▸ rfl, h2 ▸ h4.symm ▸ rfl⟩
      simp [update_combination_status, h, findCombo, List.find?_cons_of_neg,
        matchesKey_applySet, hc2]
    · by_cases h2 : matchesKey l2 i2 c
      · simp [update_combination_status, h, findCombo, List.find?_cons_of_pos, h2]
      · simp only [update_combination_status, h, if_false, Bool.false_eq_true]
        simpa [findCombo, List.find?_cons_of_neg, h2] using ih

/-- Key presence survives any `update_one`. -/
lemma isSome_findCombo_update {s : List Combination} {l2 i2 : String}
    (h : (findCombo s l2 i2).isSome = true) (l i : String) (st : Status) (rc : Option Nat)
    (now : Nat) :
    (findCombo (update_combination_status s l i st rc now) l2 i2).isSome = true := by
  by_cases hk : l = l2 ∧ i = i2
  · rcases hk with ⟨rfl, rfl⟩
    rw [findCombo_update_self]
    simpa using h
  · rw [findCombo_update_other hk]
    exact h

/-- Every document of the updated store is either an untouched original
or the `$set` image of a matching original. -/
lemma mem_update {s : List Combination} {l i : String} {st : Status} {rc : Option Nat}
    {now : Nat} {e : Combination}
    (he : e ∈ update_combination_status s l i st rc now) :
    e ∈ s ∨ ∃ d, d ∈ s ∧ matchesKey l i d = true ∧ e = applySet d st rc now := by
  induction s with
  | nil => simp [update_combination_status] at he
  | cons c rest ih =>
    by_cases h : matchesKey l i c
    · rw [update_combination_status, if_pos h] at he
      rcases List.mem_cons.mp he with h1 | h1
      · exact Or.inr ⟨c, List.mem_cons_self c rest, h, h1⟩
      · exact Or.inl (List.mem_cons_of_mem c h1)
    · rw [update_combination_status, if_neg (by simpa using h)] at he
      rcases List.mem_cons.mp he with h1 | h1
      · exact Or.inl (h1 ▸ List.mem_cons_self c rest)
      · rcases ih h1 with h2 | ⟨d, hd, hm, he2⟩
        · exact Or.inl (List.mem_cons_of_mem c h2)
        · exact Or.inr ⟨d, List.mem_cons_of_mem c hd, hm, he2⟩

/-! ## C3 — harvest postcondition -/

/-- C3.  Harvest postcondition: for a selected combination present in the
store, if the external search completes with count `n` the stored
document becomes `completed` with `results_count = n` (a `Nat`, hence
non-negative) and `n` is returned; if the search raises, the document
becomes `failed` and `results_count` is left exactly as it was. -/
theorem harvest_postcondition (store : List Combination) (l i : String) (d : Combination)
    (hd : findCombo store l i = some d) (outcome : SearchResult) (t1 t2 : Nat) :
    (∀ n, outcome = SearchResult.ok n →
      (search_apollo_and_save_to_mongodb store l i outcome t1 t2).2 = some n ∧
      findCombo (search_apollo_and_save_to_mongodb store l i outcome t1 t2).1 l i
        = some { d with status := .completed, results_count := some n, updated_at := t2 }) ∧
    (outcome = SearchResult.err →
      (search_apollo_and_save_to_mongodb store l i outcome t1 t2).2 = none ∧
      findCombo (search_apollo_and_save_to_mongodb store l i outcome t1 t2).1 l i
        = some { d with status := .failed, updated_at := t2 }) := by
  constructor
  · rintro n rfl
    refine ⟨rfl, ?_⟩
    simp [search_apollo_and_save_to_mongodb, findCombo_update_self, hd, applySet]
  · rintro rfl
    refine ⟨rfl, ?_⟩
    simp [search_apollo_and_save_to_mongodb, findCombo_update_self, hd, applySet]

/-- Witness for C3 at a concrete store. -/
theorem harvest_postcondition_witness :
    (search_apollo_and_save_to_mongodb
        [⟨"NYC", "r", "t1", "Tech", .pending, none, 0, 0⟩] "NYC" "Tech" (.ok 7) 1 2).2
      = some 7 ∧
    findCombo (search_apollo_and_save_to_mongodb
        [⟨"NYC", "r", "t1", "Tech", .pending, none, 0, 0⟩] "NYC" "Tech" (.ok 7) 1 2).1
        "NYC" "Tech"
      = some ⟨"NYC", "r", "t1", "Tech", .completed, some 7, 0, 2⟩ :=
  (harvest_postcondition [⟨"NYC", "r", "t1", "Tech", .pending, none, 0, 0⟩] "NYC" "Tech"
    ⟨"NYC", "r", "t1", "Tech", .pending, none, 0, 0⟩ (by decide) (.ok 7) 1 2).1 7 rfl

/-! ## C5 — reset-failed correctness and frame -/

/-- C5.  `--reset-failed` maps the store pointwise: every `failed`
document becomes `pending` with a fresh `updated_at` and all its other
fields intact, and every document of any other status is returned
unchanged; no document is added or removed. -/
theorem reset_failed_frame (s : List Combination) (now : Nat) :
    (resetFailed s now).length = s.length ∧
    ∀ k (h : k < s.length) (h2 : k < (resetFailed s now).length),
      ((s.get ⟨k, h⟩).status = Status.failed →
        (resetFailed s now).get ⟨k, h2⟩
          = { s.get ⟨k, h⟩ with status := .pending, updated_at := now }) ∧
      ((s.get ⟨k, h⟩).status ≠ Status.failed →
        (resetFailed s now).get ⟨k, h2⟩ = s.get ⟨k, h⟩) ∧
      ((resetFailed s now).get ⟨k, h2⟩).location = (s.get ⟨k, h⟩).location ∧
      ((resetFailed s now).get ⟨k, h2⟩).employee_ranges = (s.get ⟨k, h⟩).employee_ranges ∧
      ((resetFailed s now).get ⟨k, h2⟩).industry_id = (s.get ⟨k, h⟩).industry_id ∧
      ((resetFailed s now).get ⟨k, h2⟩).industry_name = (s.get ⟨k, h⟩).industry_name ∧
      ((resetFailed s now).get ⟨k, h2⟩).results_count = (s.get ⟨k, h⟩).results_count ∧
      ((resetFailed s now).get ⟨k, h2⟩).created_at = (s.get ⟨k, h⟩).created_at := by
  refine ⟨by simp [resetFailed], ?_⟩
  intro k h h2
  have hget : (resetFailed s now).get ⟨k, h2⟩
      = if (s.get ⟨k, h⟩).status = Status.failed then
          { s.get ⟨k, h⟩ with status := .pending, updated_at := now }
        else s.get ⟨k, h⟩ := by
    simp [resetFailed, resetDoc]
  rw [hget]
  by_cases hst : (s.get ⟨k, h⟩).status = Status.failed
  · rw [if_pos hst]
    exact ⟨fun _ => rfl, fun hc => absurd hst hc, rfl, rfl, rfl, rfl, rfl, rfl⟩
  · rw [if_neg hst]
    exact ⟨fun hc => absurd hc hst, fun _ => rfl, rfl, rfl, rfl, rfl, rfl, rfl⟩

/-- Witness for C5: the single failed document is reset to pending. -/
theorem reset_failed_frame_witness :
    (resetFailed [⟨"LA", "r", "h1", "Health", .failed, none, 0, 1⟩] 5).get ⟨0, by decide⟩
      = ⟨"LA", "r", "h1", "Health", .pending, none, 0, 5⟩ :=
  ((reset_failed_frame [⟨"LA", "r", "h1", "Health", .failed, none, 0, 1⟩] 5).2 0 (by decide)
    (by decide)).1 (by decide)

/-! ## C7 — skip-generation heuristic -/

/-- C7.  When the current document count equals
`total_potential = |locations| × |employee_ranges| × |industries|`,
`generate_combinations` performs no write at all (the store is returned
as it was) and reports the current per-status counts with
`skipped_generation = True` and nothing newly added. -/
theorem generation_skip_heuristic (L : List String) (T : List (String × String)) (now : Nat)
    (f : Nat → Bool) (s : List Combination)
    (h : s.length = L.length * employeeRangesList.length * T.length) :
    (generate_combinations L T now f s).1 = s ∧
    (generate_combinations L T now f s).2
      = { total := L.length * employeeRangesList.length * T.length
          pending := countStatus s .pending
          completed := countStatus s .completed
          failed := countStatus s .failed
          in_progress := countStatus s .in_progress
          new_added := 0
          skipped_generation := true } := by
  constructor <;> simp [generate_combinations, h]

/-- Witness for C7: a store of one document for a 1×1×1 space. -/
theorem generation_skip_heuristic_witness :
    (generate_combinations ["NYC"] [("Tech", "t1")] 5 (fun _ => false)
      [⟨"NYC", "r", "t1", "Tech", .completed, some 7, 0, 1⟩]).1
      = [⟨"NYC", "r", "t1", "Tech", .completed, some 7, 0, 1⟩] :=
  (generation_skip_heuristic ["NYC"] [("Tech", "t1")] 5 (fun _ => false)
    [⟨"NYC", "r", "t1", "Tech", .completed, some 7, 0, 1⟩] (by decide)).1

/-! ## Generator lemmas -/

lemma upsertAll_cons (s : List Combination) (c : Combination) (cs : List Combination) :
    upsertAll s (c :: cs) = upsertAll (upsertOne s c) cs := rfl

lemma upsertAll_append (s : List Combination) (a b : List Combination) :
    upsertAll s (a ++ b) = upsertAll (upsertAll s a) b :=
  List.foldl_append ..

/-- Conditional inserts only ever append: the original documents survive
verbatim as the prefix, and everything appended comes from the inserted
batch. -/
lemma upsertAll_exists_ext : ∀ (cs s : List Combination),
    ∃ ext, upsertAll s cs = s ++ ext ∧ ∀ x ∈ ext, x ∈ cs
  | [], s => ⟨[], by simp [upsertAll], by simp⟩
  | c :: cs, s => by
      rw [upsertAll_cons]
      rcases upsertAll_exists_ext cs (upsertOne s c) with ⟨ext, he, hsub⟩
      by_cases h : hasKey s c.location c.industry_name
      · rw [upsertOne, if_pos h] at he ⊢
        exact ⟨ext, he, fun x hx => List.mem_cons_of_mem c (hsub x hx)⟩
      · rw [upsertOne, if_neg h] at he ⊢
        refine ⟨c :: ext, by rw [he]; simp, ?_⟩
        intro x hx
        rcases List.mem_cons.mp hx with rfl | hx2
        · exact List.mem_cons_self _ _
        · exact List.mem_cons_of_mem c (hsub x hx2)

lemma upsertAll_noop : ∀ (cs s : List Combination),
    (∀ c ∈ cs, hasKey s c.location c.industry_name = true) → upsertAll s cs = s
  | [], _, _ => rfl
  | c :: cs, s, h => by
      rw [upsertAll_cons, upsertOne, if_pos (h c (List.mem_cons_self _ _))]
      exact upsertAll_noop cs s fun x hx => h x (List.mem_cons_of_mem c hx)

lemma chunksOfAux_flatten (n : Nat) : ∀ (fuel : Nat) (l : List α), l.length ≤ fuel →
    (chunksOfAux n fuel l).flatten = l
  | fuel, [], _ => by cases fuel <;> simp [chunksOfAux]
  | 0, _ :: _, h => by simp at h
  | fuel + 1, a :: t, h => by
      rw [chunksOfAux, List.flatten_cons,
        chunksOfAux_flatten n fuel _ (by
          have hml : 1 ≤ max n 1 := Nat.le_max_right n 1
          simp only [List.length_drop, List.length_cons]
          simp only [List.length_cons] at h
          omega),
        List.take_append_drop]

lemma runBatches_nil (f : Nat → Bool) (i : Nat) (s : List Combination) :
    runBatches f i s [] = s := rfl

lemma survivingBatches_nil (f : Nat → Bool) (i : Nat) :
    survivingBatches f i [] = [] := rfl

lemma chunksOf_flatten (n : Nat) (l : List α) : (chunksOf n l).flatten = l :=
  chunksOfAux_flatten n l.length l le_rfl

/-- Dropping the failing batches and applying the rest in order is
exactly what the generation loop computes. -/
lemma runBatches_eq : ∀ (bs : List (List Combination)) (f : Nat → Bool) (i : Nat)
    (s : List Combination),
    runBatches f i s bs = upsertAll s (survivingBatches f i bs).flatten
  | [], f, i, s => by simp [runBatches_nil, survivingBatches_nil, upsertAll]
  | b :: rest, f, i, s => by
      rw [runBatches, survivingBatches]
      by_cases h : f i
      · rw [if_pos h, if_pos h, runBatches_eq rest]
      · rw [if_neg h, if_neg h, runBatches_eq rest, List.flatten_cons, upsertAll_append]

lemma survivingBatches_sub {f : Nat → Bool} :
    ∀ (bs : List (List Combination)) (i : Nat) (x : List Combination),
      x ∈ survivingBatches f i bs → x ∈ bs
  | [], i, x, hx => by simp [survivingBatches_nil] at hx
  | b :: rest, i, x, hx => by
      rw [survivingBatches] at hx
      by_cases h : f i
      · rw [if_pos h] at hx
        exact List.mem_cons_of_mem b (survivingBatches_sub rest (i + 1) x hx)
      · rw [if_neg h] at hx
        rcases List.mem_cons.mp hx with rfl | hx2
        · exact List.mem_cons_self _ _
        · exact List.mem_cons_of_mem b (survivingBatches_sub rest (i + 1) x hx2)

lemma survivingBatches_all {f : Nat → Bool} (hf : ∀ j, f j = false) :
    ∀ (bs : List (List Combination)) (i : Nat), survivingBatches f i bs = bs
  | [], _ => rfl
  | b :: bs, i => by
      rw [survivingBatches, if_neg (by simp [hf i]), survivingBatches_all hf bs]

lemma matchesKey_comboKey {l i : String} {c : Combination} :
    matchesKey l i c = true ↔ comboKey c = (l, i) := by
  simp [matchesKey, comboKey, Prod.ext_iff]

lemma countKey_append (s t : List Combination) (l i : String) :
    countKey (s ++ t) l i = countKey s l i + countKey t l i := by
  simp [countKey, List.filter_append]

lemma countKey_singleton (c : Combination) (l i : String) :
    countKey [c] l i = if matchesKey l i c then 1 else 0 := by
  by_cases h : matchesKey l i c <;> simp [countKey, List.filter, h]

lemma hasKey_false_countKey {s : List Combination} {l i : String}
    (h : hasKey s l i = false) : countKey s l i = 0 := by
  rw [countKey, List.length_eq_zero, List.filter_eq_nil_iff]
  intro a ha
  exact (List.any_eq_false.mp h) a ha

lemma hasKey_true_countKey {s : List Combination} {l i : String}
    (h : hasKey s l i = true) : 0 < countKey s l i := by
  rcases List.any_eq_true.mp h with ⟨d, hd, hm⟩
  rw [countKey, List.length_pos]
  intro hnil
  exact absurd hm (by simpa using (List.filter_eq_nil_iff.mp hnil) d hd)

/-- Exact per-key count after a run of conditional inserts: an occupied
key keeps its count, an absent key covered by the batch ends at exactly
one document, anything else stays absent. -/
lemma countKey_upsertAll : ∀ (cs s : List Combination) (l i : String),
    countKey (upsertAll s cs) l i
      = if 0 < countKey s l i then countKey s l i
        else if (l, i) ∈ cs.map comboKey then 1 else 0
  | [], s, l, i => by
      rcases Nat.eq_zero_or_pos (countKey s l i) with h | h <;> simp [upsertAll, h]
  | c :: cs, s, l, i => by
      rw [upsertAll_cons, countKey_upsertAll cs]
      by_cases hk : hasKey s c.location c.industry_name
      · rw [upsertOne, if_pos hk]
        by_cases hli : (l, i) = comboKey c
        · have h1 : c.location = l := congrArg Prod.fst hli.symm
          have h2 : c.industry_name = i := congrArg Prod.snd hli.symm
          have hpos : 0 < countKey s l i := hasKey_true_countKey (h1 ▸ h2 ▸ hk)
          rw [if_pos hpos, if_pos hpos]
        · rw [List.map_cons]
          have hmem : ((l, i) ∈ comboKey c :: cs.map comboKey) ↔ (l, i) ∈ cs.map comboKey := by
            simp [List.mem_cons, hli]
          simp only [hmem]
      · have hk2 : hasKey s c.location c.industry_name = false := by simpa using hk
        rw [upsertOne, if_neg hk]
        by_cases hli : (l, i) = comboKey c
        · have h1 : c.location = l := congrArg Prod.fst hli.symm
          have h2 : c.industry_name = i := congrArg Prod.snd hli.symm
          have hz : countKey s l i = 0 := hasKey_false_countKey (h1 ▸ h2 ▸ hk2)
          have hm : matchesKey l i c = true := matchesKey_comboKey.mpr hli.symm
          have hcc : countKey (s ++ [c]) l i = 1 := by
            rw [countKey_append, countKey_singleton, if_pos hm, hz]
          rw [hcc, hz, if_pos (by omega : 0 < 1), if_neg (by omega : ¬0 < 0), List.map_cons,
            if_pos (List.mem_cons.mpr (Or.inl hli))]
        · have hm : matchesKey l i c = false := by
            by_contra hcon
            exact hli (matchesKey_comboKey.mp (by simpa using hcon)).symm
          have hcc : countKey (s ++ [c]) l i = countKey s l i := by
            rw [countKey_append, countKey_singleton, if_neg (by simp [hm]), Nat.add_zero]
          rw [hcc, List.map_cons]
          have hmem : ((l, i) ∈ comboKey c :: cs.map comboKey) ↔ (l, i) ∈ cs.map comboKey := by
            simp [List.mem_cons, hli]
          simp only [hmem]

/-- The keys produced by the product enumeration are exactly the
`(location, industry_name)` pairs of `locations × industries`. -/
lemma map_comboKey_genCombos (L : List String) (T : List (String × String)) (now : Nat) :
    (genCombos L employeeRangesList T now).map comboKey = enumKeys L T := by
  simp [genCombos, enumKeys, employeeRangesList, List.map_flatMap, List.map_map,
    Function.comp_def, comboKey, mkCombination]

/-- The non-skip branch of `generate_combinations`, written as the
surviving conditional inserts applied to the store. -/
lemma generate_combinations_fst (L : List String) (T : List (String × String)) (now : Nat)
    (f : Nat → Bool) (s : List Combination)
    (h : ¬s.length = L.length * employeeRangesList.length * T.length) :
    (generate_combinations L T now f s).1
      = upsertAll s
          (survivingBatches f 0
            (chunksOf genBatchSize (genCombos L employeeRangesList T now))).flatten := by
  simp only [generate_combinations, if_neg h]
  exact runBatches_eq ..

lemma generate_fst_skip {L : List String} {T : List (String × String)} {now : Nat}
    {f : Nat → Bool} {s : List Combination}
    (h : s.length = L.length * employeeRangesList.length * T.length) :
    (generate_combinations L T now f s).1 = s := by
  simp [generate_combinations, h]

/-- After one failure-free run from the empty collection, every key of
the enumerated product has exactly one document. -/
lemma countKey_generate_from_nil (L : List String) (T : List (String × String)) (now : Nat)
    (f : Nat → Bool) (hf : ∀ j, f j = false) {l i : String}
    (hk : (l, i) ∈ enumKeys L T) :
    countKey (generate_combinations L T now f []).1 l i = 1 := by
  have hL : L ≠ [] := by
    rintro rfl
    simp [enumKeys] at hk
  have hT : T ≠ [] := by
    rintro rfl
    simp [enumKeys] at hk
  have hne : ¬(([] : List Combination).length
      = L.length * employeeRangesList.length * T.length) := by
    have h1 : 0 < L.length := List.length_pos.mpr hL
    have h2 : 0 < T.length := List.length_pos.mpr hT
    have h3 : 0 < L.length * employeeRangesList.length * T.length :=
      Nat.mul_pos (Nat.mul_pos h1 (by simp [employeeRangesList])) h2
    simp only [List.length_nil]
    omega
  rw [generate_combinations_fst L T now f [] hne, survivingBatches_all hf, chunksOf_flatten,
    countKey_upsertAll]
  have hzero : countKey [] l i = 0 := rfl
  rw [hzero, if_neg (by omega), map_comboKey_genCombos, if_pos hk]

/-- When every enumerated key is already present, a generation run
returns the store unchanged (whether it skips or re-upserts). -/
lemma generate_fixpoint {L : List String} {T : List (String × String)}
    {s : List Combination} (hall : ∀ k ∈ enumKeys L T, hasKey s k.1 k.2 = true)
    (now : Nat) (f : Nat → Bool) :
    (generate_combinations L T now f s).1 = s := by
  by_cases h : s.length = L.length * employeeRangesList.length * T.length
  · exact generate_fst_skip h
  · rw [generate_combinations_fst L T now f s h]
    apply upsertAll_noop
    intro c hc
    have hcg : c ∈ genCombos L employeeRangesList T now := by
      rw [← chunksOf_flatten genBatchSize (genCombos L employeeRangesList T now)]
      rcases List.mem_flatten.mp hc with ⟨b, hb, hcb⟩
      exact List.mem_flatten.mpr ⟨b, survivingBatches_sub _ _ b hb, hcb⟩
    have hkey : (c.location, c.industry_name) ∈ enumKeys L T := by
      have hmem := List.mem_map_of_mem comboKey hcg
      rw [map_comboKey_genCombos] at hmem
      exact hmem
    exact hall _ hkey

/-! ## C1 — generation is idempotent -/

/-- C1.  Idempotent generation: (i) a run of `generate_combinations`
never rewrites or removes anything — the input store is a verbatim
prefix of the output; (ii) starting from an empty collection, after one
failure-free run and then any number of further consecutive runs, every
`(location, industry_name)` pair of the enumerated cross-product is held
by exactly one document; (iii) every run after the first returns the
store completely unchanged — in particular the `status`,
`results_count` and `created_at` of every existing document. -/
theorem generation_idempotent (L : List String) (T : List (String × String))
    (nows : Nat → Nat) (fls : Nat → Nat → Bool) (hf : ∀ j, fls 0 j = false) :
    (∀ (s : List Combination) (now : Nat) (f : Nat → Bool),
      ∃ ext, (generate_combinations L T now f s).1 = s ++ ext) ∧
    (∀ n, 1 ≤ n → ∀ l i, (l, i) ∈ enumKeys L T →
      countKey (genIter L T nows fls n) l i = 1) ∧
    (∀ n, 1 ≤ n → genIter L T nows fls (n + 1) = genIter L T nows fls n) := by
  have happend : ∀ (s : List Combination) (now : Nat) (f : Nat → Bool),
      ∃ ext, (generate_combinations L T now f s).1 = s ++ ext := by
    intro s now f
    by_cases h : s.length = L.length * employeeRangesList.length * T.length
    · exact ⟨[], by rw [generate_fst_skip h, List.append_nil]⟩
    · rw [generate_combinations_fst L T now f s h]
      rcases upsertAll_exists_ext
        ((survivingBatches f 0
          (chunksOf genBatchSize (genCombos L employeeRangesList T now))).flatten) s with
        ⟨ext, he, _⟩
      exact ⟨ext, he⟩
  have hbase : ∀ l i, (l, i) ∈ enumKeys L T →
      countKey (genIter L T nows fls 1) l i = 1 := by
    intro l i hk
    exact countKey_generate_from_nil L T (nows 0) (fls 0) hf hk
  have hall1 : ∀ k ∈ enumKeys L T, hasKey (genIter L T nows fls 1) k.1 k.2 = true := by
    rintro ⟨l, i⟩ hk
    have hc := hbase l i hk
    by_contra hcon
    have : countKey (genIter L T nows fls 1) l i = 0 :=
      hasKey_false_countKey (by simpa using hcon)
    omega
  have heq1 : ∀ n, 1 ≤ n → genIter L T nows fls n = genIter L T nows fls 1 := by
    intro n hn
    induction n with
    | zero => omega
    | succ m ih =>
      rcases Nat.eq_zero_or_pos m with rfl | hm
      · rfl
      · have hm1 := ih hm
        show (generate_combinations L T (nows m) (fls m) (genIter L T nows fls m)).1
          = genIter L T nows fls 1
        rw [hm1]
        exact generate_fixpoint hall1 (nows m) (fls m)
  refine ⟨happend, ?_, ?_⟩
  · intro n hn l i hk
    rw [heq1 n hn]
    exact hbase l i hk
  · intro n hn
    rw [heq1 (n + 1) (by omega), heq1 n hn]

/-- Witness for C1: a 2×1×2 space generated from the empty store; the
key `("LA", "Health")` ends with exactly one document, and a second run
changes nothing. -/
theorem generation_idempotent_witness :
    countKey (genIter ["NYC", "LA"] [("Tech", "t1"), ("Health", "h1")]
      (fun k => k) (fun _ _ => false) 1) "LA" "Health" = 1 ∧
    genIter ["NYC", "LA"] [("Tech", "t1"), ("Health", "h1")] (fun k => k) (fun _ _ => false) 2
      = genIter ["NYC", "LA"] [("Tech", "t1"), ("Health", "h1")] (fun k => k)
          (fun _ _ => false) 1 :=
  ⟨(generation_idempotent ["NYC", "LA"] [("Tech", "t1"), ("Health", "h1")] (fun k => k)
      (fun _ _ => false) (fun _ => rfl)).2.1 1 (by omega) "LA" "Health" (by decide),
   (generation_idempotent ["NYC", "LA"] [("Tech", "t1"), ("Health", "h1")] (fun k => k)
      (fun _ _ => false) (fun _ => rfl)).2.2 1 (by omega)⟩

/-! ## C8 — generator batching -/

/-- C8 counterexample.  The claim calls the bulk-upsert batch size
"configurable"; it is not: `Command.handle` parses `--batch-size`
(default 5000) but never passes it on, and `generate_combinations` takes
no batch-size argument, hardcoding `batch_size = 100000`.  Concretely:
with two combinations to insert and the first bulk write failing, a run
with `--batch-size 1` and a run with `--batch-size 50000` produce the
same store — and that store is empty, i.e. both documents sat in the one
(failing) batch.  Were the option effective with value 1, the second
document would have been inserted by its own surviving batch. -/
theorem batch_size_not_configurable_cex :
    Command_handle
      ⟨fun _ => true, ["NYC", "LA"], [("Tech", "t1")], fun _ _ => .ok 0,
        fun j => decide (j = 0), 0⟩
      ⟨none, none, none, "c.json", "h.json", false, none, false, 1⟩ []
    = Command_handle
      ⟨fun _ => true, ["NYC", "LA"], [("Tech", "t1")], fun _ _ => .ok 0,
        fun j => decide (j = 0), 0⟩
      ⟨none, none, none, "c.json", "h.json", false, none, false, 50000⟩ [] ∧
    (generate_combinations ["NYC", "LA"] [("Tech", "t1")] 0 (fun j => decide (j = 0)) []).1
      = [] := by
  exact ⟨by decide, by decide⟩

/-- C8 amended.  Generation buffers the conditional inserts and flushes
them as unordered bulk upserts of the fixed batch size 100000 (the
`--batch-size` CLI option is parsed but unused); a batch whose write
raises is dropped without retry and generation continues with the next
batch: the resulting store is the input store with exactly the surviving
batches' conditional inserts applied in order. -/
theorem generator_batching_amended (L : List String) (T : List (String × String)) (now : Nat)
    (f : Nat → Bool) (s : List Combination)
    (h : ¬s.length = L.length * employeeRangesList.length * T.length) :
    (generate_combinations L T now f s).1
      = upsertAll s
          (survivingBatches f 0
            (chunksOf genBatchSize (genCombos L employeeRangesList T now))).flatten ∧
    genBatchSize = 100000 :=
  ⟨generate_combinations_fst L T now f s h, rfl⟩

/-- Witness for C8 (amended) at the concrete failing-first-batch run. -/
theorem generator_batching_amended_witness :
    (generate_combinations ["NYC", "LA"] [("Tech", "t1")] 0 (fun j => decide (j = 0)) []).1
      = upsertAll []
          (survivingBatches (fun j => decide (j = 0)) 0
            (chunksOf genBatchSize
              (genCombos ["NYC", "LA"] employeeRangesList [("Tech", "t1")] 0))).flatten ∧
    genBatchSize = 100000 :=
  generator_batching_amended ["NYC", "LA"] [("Tech", "t1")] 0 (fun j => decide (j = 0)) []
    (by decide)

/-! ## C9 — run precondition on the cookies/headers files -/

/-- C9.  A missing cookies or headers file makes `Command.handle` return
immediately with the error flag: the store is untouched — no reset, no
generation, no status transition — and no combination is processed.
When both files exist the check itself writes nothing: the pipeline runs
on the original store. -/
theorem run_precondition (env : HandleEnv) (opts : Options) (store : List Combination) :
    ((env.fileExists opts.cookies_file = false ∨ env.fileExists opts.headers_file = false) →
      Command_handle env opts store = (store, true)) ∧
    (env.fileExists opts.cookies_file = true → env.fileExists opts.headers_file = true →
      Command_handle env opts store = (handleAfterPrecheck env opts store, false)) := by
  constructor
  · rintro (h | h) <;> simp [Command_handle, h]
  · intro h1 h2
    simp [Command_handle, h1, h2]

/-- Witness for C9: with no file present the run aborts with the store
untouched. -/
theorem run_precondition_witness :
    Command_handle
      ⟨fun _ => false, ["NYC"], [("Tech", "t1")], fun _ _ => .ok 0, fun _ => false, 0⟩
      ⟨none, none, none, "data/cookies.json", "data/headers.json", false, none, false, 5000⟩
      [⟨"NYC", "r", "t1", "Tech", .pending, none, 0, 0⟩]
      = ([⟨"NYC", "r", "t1", "Tech", .pending, none, 0, 0⟩], true) :=
  (run_precondition
    ⟨fun _ => false, ["NYC"], [("Tech", "t1")], fun _ _ => .ok 0, fun _ => false, 0⟩
    ⟨none, none, none, "data/cookies.json", "data/headers.json", false, none, false, 5000⟩
    [⟨"NYC", "r", "t1", "Tech", .pending, none, 0, 0⟩]).1 (Or.inl rfl)

/-! ## C6 — work selector -/

lemma leadsWith_iff : ∀ p s : List Char, leadsWith p s = true ↔ ∃ rest, s = p ++ rest
  | [], s => by simp [leadsWith]
  | a :: as, [] => by simp [leadsWith]
  | a :: as, b :: bs => by
      rw [leadsWith]
      simp only [Bool.and_eq_true, decide_eq_true_eq, leadsWith_iff as bs, List.cons_append]
      constructor
      · rintro ⟨rfl, rest, rfl⟩
        exact ⟨rest, rfl⟩
      · rintro ⟨rest, heq⟩
        injection heq with h1 h2
        exact ⟨h1.symm, rest, h2⟩

lemma containsSub_iff : ∀ p s : List Char, containsSub p s = true ↔ ∃ pre post, s = pre ++ p ++ post
  | p, [] => by
      rw [containsSub]
      rw [leadsWith_iff]
      constructor
      · rintro ⟨rest, h⟩
        exact ⟨[], rest, by simpa using h⟩
      · rintro ⟨pre, post, h⟩
        have h2 : pre = [] ∧ p = [] ∧ post = [] := by simpa using h.symm
        exact ⟨[], by simp [h2.2.1]⟩
  | p, b :: bs => by
      rw [containsSub]
      simp only [Bool.or_eq_true, leadsWith_iff, containsSub_iff p bs]
      constructor
      · rintro (⟨rest, h⟩ | ⟨pre, post, h⟩)
        · exact ⟨[], rest, by simpa using h⟩
        · exact ⟨b :: pre, post, by simp [h]⟩
      · rintro ⟨pre, post, h⟩
        cases pre with
        | nil => exact Or.inl ⟨post, by simpa using h⟩
        | cons b0 pre2 =>
            rw [List.cons_append, List.cons_append] at h
            injection h with h1 h2
            exact Or.inr ⟨pre2, post, h2⟩

/-- The `$options: "i"` regex filter on a literal pattern means: the
lowercased pattern occurs contiguously inside the lowercased field. -/
lemma containsCI_iff {s pat : String} :
    containsCI s pat = true ↔
      ∃ pre post, s.toLower.toList = pre ++ pat.toLower.toList ++ post := by
  rw [containsCI, containsSub_iff]

/-- Selected documents come from the store and satisfy the query. -/
lemma mem_select {s : List Combination} {st : Option Status} {lo io : Option String}
    {li : Option Int} {d : Combination} (hd : d ∈ selectCombinations s st lo io li) :
    d ∈ s ∧ matchesQuery st lo io d = true := by
  rcases li with _ | l
  · simp only [selectCombinations] at hd
    exact ⟨(List.mem_filter.mp hd).1, (List.mem_filter.mp hd).2⟩
  · simp only [selectCombinations] at hd
    by_cases hc : 0 < l ∧ l < ((s.filter (matchesQuery st lo io)).length : Int)
    · rw [if_pos hc] at hd
      have hmem := List.take_subset _ _ hd
      exact ⟨(List.mem_filter.mp hmem).1, (List.mem_filter.mp hmem).2⟩
    · rw [if_neg hc] at hd
      exact ⟨(List.mem_filter.mp hd).1, (List.mem_filter.mp hd).2⟩

lemma matchesQuery_status_none {lo io : Option String} {d : Combination}
    (h : matchesQuery none lo io d = true) :
    d.status = Status.pending ∨ d.status = Status.failed := by
  simp only [matchesQuery, Bool.and_eq_true, Bool.or_eq_true, decide_eq_true_eq] at h
  exact h.1.1

lemma matchesQuery_status_some {st : Status} {lo io : Option String} {d : Combination}
    (h : matchesQuery (some st) lo io d = true) : d.status = st := by
  simp only [matchesQuery, Bool.and_eq_true, decide_eq_true_eq] at h
  exact h.1.1

lemma matchesQuery_location {st : Option Status} {pat : String} {io : Option String}
    {d : Combination} (h : matchesQuery st (some pat) io d = true) :
    containsCI d.location pat = true := by
  simp only [matchesQuery, Bool.and_eq_true] at h
  exact h.1.2

lemma matchesQuery_industry {st : Option Status} {lo : Option String} {pat : String}
    {d : Combination} (h : matchesQuery st lo (some pat) d = true) :
    containsCI d.industry_name pat = true := by
  simp only [matchesQuery, Bool.and_eq_true] at h
  exact h.2

/-- The selection is a sublist of the store, in store order. -/
lemma select_sublist (s : List Combination) (st : Option Status) (lo io : Option String)
    (li : Option Int) : List.Sublist (selectCombinations s st lo io li) s := by
  rcases li with _ | l
  · simpa only [selectCombinations] using List.filter_sublist s
  · simp only [selectCombinations]
    by_cases hc : 0 < l ∧ l < ((s.filter (matchesQuery st lo io)).length : Int)
    · rw [if_pos hc]
      exact ((s.filter (matchesQuery st lo io)).take_sublist _).trans (List.filter_sublist s)
    · rw [if_neg hc]
      exact List.filter_sublist s

/-- C6.  Selector contract: with no `--status` option only `pending` and
`failed` documents are returned; with `--status completed` only
`completed` ones; a `--location`/`--industry` option means the
lowercased pattern occurs inside the lowercased field; the result is
always a sublist of the store in store order; and a positive `--limit`
smaller than the match count truncates to exactly the first `limit`
matches. -/
theorem selector_correct (s : List Combination) (lo io : Option String) (li : Option Int) :
    (∀ d ∈ selectCombinations s none lo io li,
      d.status = Status.pending ∨ d.status = Status.failed) ∧
    (∀ d ∈ selectCombinations s (some Status.completed) lo io li,
      d.status = Status.completed) ∧
    (∀ (st : Option Status) (pat : String),
      ∀ d ∈ selectCombinations s st (some pat) io li,
      ∃ pre post, d.location.toLower.toList = pre ++ pat.toLower.toList ++ post) ∧
    (∀ (st : Option Status) (pat : String),
      ∀ d ∈ selectCombinations s st lo (some pat) li,
      ∃ pre post, d.industry_name.toLower.toList = pre ++ pat.toLower.toList ++ post) ∧
    (∀ st : Option Status, List.Sublist (selectCombinations s st lo io li) s) ∧
    (∀ (st : Option Status) (n : Int), 0 < n →
      n < ((s.filter (matchesQuery st lo io)).length : Int) →
      selectCombinations s st lo io (some n)
        = (s.filter (matchesQuery st lo io)).take n.toNat ∧
      (selectCombinations s st lo io (some n)).length = n.toNat) := by
  refine ⟨?_, ?_, ?_, ?_, ?_, ?_⟩
  · intro d hd
    exact matchesQuery_status_none (mem_select hd).2
  · intro d hd
    exact matchesQuery_status_some (mem_select hd).2
  · intro st pat d hd
    exact containsCI_iff.mp (matchesQuery_location (mem_select hd).2)
  · intro st pat d hd
    exact containsCI_iff.mp (matchesQuery_industry (mem_select hd).2)
  · intro st
    exact select_sublist s st lo io li
  · intro st n hn1 hn2
    have heq : selectCombinations s st lo io (some n)
        = (s.filter (matchesQuery st lo io)).take n.toNat := by
      simp only [selectCombinations]
      rw [if_pos ⟨hn1, hn2⟩]
    refine ⟨heq, ?_⟩
    rw [heq, List.length_take]
    omega

/-- Witness for C6: the limit branch at a concrete three-document
store. -/
theorem selector_correct_witness :
    selectCombinations
        [⟨"NYC", "r", "t1", "Tech", .pending, none, 0, 0⟩,
         ⟨"LA", "r", "h1", "Health", .failed, none, 0, 0⟩,
         ⟨"SF", "r", "t1", "Tech", .completed, some 3, 0, 0⟩] none none none (some 1)
      = ([⟨"NYC", "r", "t1", "Tech", .pending, none, 0, 0⟩,
          ⟨"LA", "r", "h1", "Health", .failed, none, 0, 0⟩,
          ⟨"SF", "r", "t1", "Tech", .completed, some 3, 0, 0⟩].filter
            (matchesQuery none none none)).take ((1 : Int).toNat) ∧
    (selectCombinations
        [⟨"NYC", "r", "t1", "Tech", .pending, none, 0, 0⟩,
         ⟨"LA", "r", "h1", "Health", .failed, none, 0, 0⟩,
         ⟨"SF", "r", "t1", "Tech", .completed, some 3, 0, 0⟩] none none none
        (some 1)).length = (1 : Int).toNat :=
  (selector_correct
    [⟨"NYC", "r", "t1", "Tech", .pending, none, 0, 0⟩,
     ⟨"LA", "r", "h1", "Health", .failed, none, 0, 0⟩,
     ⟨"SF", "r", "t1", "Tech", .completed, some 3, 0, 0⟩] none none none).2.2.2.2.2 none 1
    (by decide) (by decide)

/-! ## C4 — per-item failure isolation -/

/-- A driver step on item `c` leaves lookups of any other key
unchanged. -/
lemma driverStep_frame {c : Combination} {l2 i2 : String}
    (hne : ¬(c.location = l2 ∧ c.industry_name = i2)) (s : List Combination)
    (r : SearchResult) (clock : Nat) :
    findCombo (driverStep s c r clock) l2 i2 = findCombo s l2 i2 := by
  cases r with
  | ok n =>
      show findCombo (update_combination_status
        (update_combination_status s c.location c.industry_name .in_progress none clock)
        c.location c.industry_name .completed (some n) (clock + 1)) l2 i2 = findCombo s l2 i2
      rw [findCombo_update_other hne, findCombo_update_other hne]
  | err =>
      show findCombo (update_combination_status (update_combination_status
        (update_combination_status s c.location c.industry_name .in_progress none clock)
        c.location c.industry_name .failed none (clock + 1)) c.location c.industry_name
        .failed none (clock + 2)) l2 i2 = findCombo s l2 i2
      rw [findCombo_update_other hne, findCombo_update_other hne, findCombo_update_other hne]

/-- A driver step never removes a key. -/
lemma driverStep_isSome {s : List Combination} {l2 i2 : String}
    (hp : (findCombo s l2 i2).isSome = true) (c : Combination) (r : SearchResult)
    (clock : Nat) :
    (findCombo (driverStep s c r clock) l2 i2).isSome = true := by
  cases r with
  | ok n =>
      show (findCombo (update_combination_status
        (update_combination_status s c.location c.industry_name .in_progress none clock)
        c.location c.industry_name .completed (some n) (clock + 1)) l2 i2).isSome = true
      exact isSome_findCombo_update (isSome_findCombo_update hp ..) ..
  | err =>
      show (findCombo (update_combination_status (update_combination_status
        (update_combination_status s c.location c.industry_name .in_progress none clock)
        c.location c.industry_name .failed none (clock + 1)) c.location c.industry_name
        .failed none (clock + 2)) l2 i2).isSome = true
      exact isSome_findCombo_update (isSome_findCombo_update (isSome_findCombo_update hp ..) ..) ..

/-- What a driver step does to its own item: success ends `completed`
with the returned count, an exception ends `failed` with
`results_count` untouched. -/
lemma driverStep_self {s : List Combination} {c d : Combination}
    (hd : findCombo s c.location c.industry_name = some d) (clock : Nat) :
    (∀ n, findCombo (driverStep s c (.ok n) clock) c.location c.industry_name
      = some { d with status := .completed, results_count := some n,
                      updated_at := clock + 1 }) ∧
    (findCombo (driverStep s c .err clock) c.location c.industry_name
      = some { d with status := .failed, updated_at := clock + 2 }) := by
  constructor
  · intro n
    show findCombo (update_combination_status
      (update_combination_status s c.location c.industry_name .in_progress none clock)
      c.location c.industry_name .completed (some n) (clock + 1)) c.location c.industry_name = _
    rw [findCombo_update_self, findCombo_update_self, hd]
    simp [applySet]
  · show findCombo (update_combination_status (update_combination_status
      (update_combination_status s c.location c.industry_name .in_progress none clock)
      c.location c.industry_name .failed none (clock + 1)) c.location c.industry_name
      .failed none (clock + 2)) c.location c.industry_name = _
    rw [findCombo_update_self, findCombo_update_self, findCombo_update_self, hd]
    simp [applySet]

/-- Frame over a whole run: a key touched by none of the remaining
items keeps its lookup. -/
lemma handleLoop_frame {oracle : String → String → SearchResult} {l2 i2 : String} :
    ∀ (items s : List Combination) (clock : Nat),
      (∀ c ∈ items, ¬(c.location = l2 ∧ c.industry_name = i2)) →
      findCombo (handleLoop oracle s items clock) l2 i2 = findCombo s l2 i2
  | [], _, _, _ => rfl
  | c :: rest, s, clock, h => by
      rw [handleLoop]
      rw [handleLoop_frame rest _ _ fun x hx => h x (List.mem_cons_of_mem c hx)]
      exact driverStep_frame (h c (List.mem_cons_self _ _)) ..

/-- C4.  Per-item failure isolation: over a queue of distinct keys all
present in the store, every item's final state is determined by its own
oracle outcome alone — an item whose search raises ends `failed` while
every other item (before or after it) is still driven to its own
outcome; no failure aborts the run.  (All exceptions the collaborators
raise are `Exception` instances — `sys.exit(1)` in
`fetch_organization_details` raises `NameError` since `sys` is not
imported — so the driver's `except Exception` always catches.) -/
theorem per_item_failure_isolation (store items : List Combination)
    (oracle : String → String → SearchResult) (clock : Nat)
    (hkeys : (items.map comboKey).Pairwise (fun a b => a ≠ b))
    (hpres : ∀ c ∈ items, (findCombo store c.location c.industry_name).isSome = true) :
    ∀ j : Fin items.length,
      (oracle (items.get j).location (items.get j).industry_name = SearchResult.err →
        ∃ d, findCombo (handleLoop oracle store items clock) (items.get j).location
              (items.get j).industry_name = some d ∧ d.status = Status.failed) ∧
      (∀ n, oracle (items.get j).location (items.get j).industry_name = SearchResult.ok n →
        ∃ d, findCombo (handleLoop oracle store items clock) (items.get j).location
              (items.get j).industry_name = some d ∧ d.status = Status.completed ∧
              d.results_count = some n) := by
  induction items generalizing store clock with
  | nil =>
      intro j
      exact absurd j.isLt (by simp)
  | cons c rest ih =>
      have hkeys2 : (comboKey c :: rest.map comboKey).Pairwise (fun a b => a ≠ b) := by
        simpa using hkeys
      have hpc := List.pairwise_cons.mp hkeys2
      have hkc : ∀ x ∈ rest, ¬(x.location = c.location ∧ x.industry_name = c.industry_name) := by
        intro x hx hcon
        exact hpc.1 (comboKey x) (List.mem_map_of_mem comboKey hx)
          (by simp [comboKey, hcon.1, hcon.2])
      intro j
      refine Fin.cases ?_ ?_ j
      · rcases Option.isSome_iff_exists.mp (hpres c (List.mem_cons_self _ _)) with ⟨d, hd⟩
        have hframe : findCombo (handleLoop oracle store (c :: rest) clock) c.location
            c.industry_name
            = findCombo (driverStep store c (oracle c.location c.industry_name) clock)
                c.location c.industry_name := by
          rw [handleLoop]
          exact handleLoop_frame rest _ _ hkc
        constructor
        · intro herr
          have herr2 : oracle c.location c.industry_name = SearchResult.err := herr
          refine ⟨{ d with status := .failed, updated_at := clock + 2 }, ?_, rfl⟩
          show findCombo (handleLoop oracle store (c :: rest) clock) c.location
            c.industry_name = _
          rw [hframe, herr2]
          exact (driverStep_self hd clock).2
        · intro n hok
          have hok2 : oracle c.location c.industry_name = SearchResult.ok n := hok
          refine ⟨{ d with status := .completed, results_count := some n, updated_at := clock + 1 }, ?_, rfl, rfl⟩
          show findCombo (handleLoop oracle store (c :: rest) clock) c.location
            c.industry_name = _
          rw [hframe, hok2]
          exact (driverStep_self hd clock).1 n
      · intro k
        have hres := ih (driverStep store c (oracle c.location c.industry_name) clock)
          (clock + 3) hpc.2
          (fun x hx => driverStep_isSome (hpres x (List.mem_cons_of_mem c hx)) ..) k
        rw [handleLoop]
        exact hres

/-- Witness for C4: item 0 fails, item 1 still completes with its own
count. -/
theorem per_item_failure_isolation_witness :
    ∃ d, findCombo
        (handleLoop
          (fun l _ => if l = "NYC" then SearchResult.err else SearchResult.ok 9)
          [⟨"NYC", "r", "t1", "Tech", .pending, none, 0, 0⟩,
           ⟨"LA", "r", "h1", "Health", .failed, none, 0, 0⟩]
          [⟨"NYC", "r", "t1", "Tech", .pending, none, 0, 0⟩,
           ⟨"LA", "r", "h1", "Health", .failed, none, 0, 0⟩] 10)
        "NYC" "Tech" = some d ∧ d.status = Status.failed :=
  ((per_item_failure_isolation
      [⟨"NYC", "r", "t1", "Tech", .pending, none, 0, 0⟩,
       ⟨"LA", "r", "h1", "Health", .failed, none, 0, 0⟩]
      [⟨"NYC", "r", "t1", "Tech", .pending, none, 0, 0⟩,
       ⟨"LA", "r", "h1", "Health", .failed, none, 0, 0⟩]
      (fun l _ => if l = "NYC" then SearchResult.err else SearchResult.ok 9) 10
      (by decide) (by decide) ⟨0, by decide⟩).1) (by decide)

/-! ## C2 — the `results_count` / `completed` invariant -/

/-- The spec's invariant: `results_count` present iff status
`completed`, for every document of the store. -/
def ResultsCountIffCompleted (s : List Combination) : Prop :=
  ∀ d ∈ s, (d.results_count.isSome = true ↔ d.status = Status.completed)

/-- The direction of the invariant that the code maintains
unconditionally: every `completed` document carries a
`results_count`. -/
def CompletedHasResultsCount (s : List Combination) : Prop :=
  ∀ d ∈ s, d.status = Status.completed → d.results_count.isSome = true

/-- At most one document per `(location, industry_name)` key — what the
unique index guarantees. -/
def UniqueKeys (s : List Combination) : Prop :=
  s.Pairwise fun a b => comboKey a ≠ comboKey b

/-- Every document with the given key has no `results_count`. -/
def KeyRcNone (s : List Combination) (l i : String) : Prop :=
  ∀ d ∈ s, d.location = l → d.industry_name = i → d.results_count = none

/-- Stores of the combinations collection reachable from the empty
collection through the system's operations: generation, bulk reset of
failed combinations, and harvest runs over a selected queue (a whole
run is one step; stores are observed between operations).  With the
flag `true`, harvest runs select with the default status filter
(`pending`/`failed`); with `false`, any `--status` option is allowed,
including re-harvesting `completed` combinations. -/
inductive Reachable : Bool → List Combination → Prop where
  | init (b : Bool) : Reachable b []
  | gen (b : Bool) (L : List String) (T : List (String × String)) (now : Nat)
      (f : Nat → Bool) (s : List Combination) :
      Reachable b s → Reachable b (generate_combinations L T now f s).1
  | reset (b : Bool) (s : List Combination) (now : Nat) :
      Reachable b s → Reachable b (resetFailed s now)
  | runDefault (b : Bool) (s : List Combination) (lo io : Option String) (li : Option Int)
      (oracle : String → String → SearchResult) (clock : Nat) :
      Reachable b s →
      Reachable b (handleLoop oracle s (selectCombinations s none lo io li) clock)
  | runAny (s : List Combination) (st : Option Status) (lo io : Option String)
      (li : Option Int) (oracle : String → String → SearchResult) (clock : Nat) :
      Reachable false s →
      Reachable false (handleLoop oracle s (selectCombinations s st lo io li) clock)

/-- Documents enumerated by generation are born `pending` without a
`results_count`. -/
lemma mem_genCombos_fields {L E : List String} {T : List (String × String)} {now : Nat}
    {c : Combination} (hc : c ∈ genCombos L E T now) :
    c.status = Status.pending ∧ c.results_count = none := by
  simp only [genCombos, List.mem_flatMap, List.mem_map] at hc
  obtain ⟨l, -, sz, -, t, -, rfl⟩ := hc
  exact ⟨rfl, rfl⟩

/-- Everything a (partially failing) generation run inserts comes from
the enumerated product. -/
lemma mem_surviving_chunks {f : Nat → Bool} {n : Nat} {l : List Combination} {x : Combination}
    (hx : x ∈ (survivingBatches f 0 (chunksOf n l)).flatten) : x ∈ l := by
  rcases List.mem_flatten.mp hx with ⟨b, hb, hxb⟩
  have hl : x ∈ (chunksOf n l).flatten :=
    List.mem_flatten.mpr ⟨b, survivingBatches_sub _ _ b hb, hxb⟩
  rwa [chunksOf_flatten] at hl

lemma fwd_update {s : List Combination} {l i : String} {st : Status} {rc : Option Nat}
    {now : Nat} (h : CompletedHasResultsCount s)
    (hok : st = Status.completed → ∃ n, rc = some n) :
    CompletedHasResultsCount (update_combination_status s l i st rc now) := by
  intro e he hst
  rcases mem_update he with he2 | ⟨d, hd, hm, rfl⟩
  · exact h e he2 hst
  · rcases hok hst with ⟨n, rfl⟩
    simp [applySet]

lemma fwd_driverStep {s : List Combination} (h : CompletedHasResultsCount s)
    (c : Combination) (r : SearchResult) (clock : Nat) :
    CompletedHasResultsCount (driverStep s c r clock) := by
  cases r with
  | ok n =>
      show CompletedHasResultsCount (update_combination_status
        (update_combination_status s c.location c.industry_name .in_progress none clock)
        c.location c.industry_name .completed (some n) (clock + 1))
      exact fwd_update (fwd_update h (by simp)) fun _ => ⟨n, rfl⟩
  | err =>
      show CompletedHasResultsCount (update_combination_status (update_combination_status
        (update_combination_status s c.location c.industry_name .in_progress none clock)
        c.location c.industry_name .failed none (clock + 1)) c.location c.industry_name
        .failed none (clock + 2))
      exact fwd_update (fwd_update (fwd_update h (by simp)) (by simp)) (by simp)

lemma fwd_handleLoop {oracle : String → String → SearchResult} :
    ∀ (items s : List Combination) (clock : Nat),
      CompletedHasResultsCount s → CompletedHasResultsCount (handleLoop oracle s items clock)
  | [], _, _, h => h
  | c :: rest, s, clock, h =>
      fwd_handleLoop rest (driverStep s c (oracle c.location c.industry_name) clock)
        (clock + 3) (fwd_driverStep h c (oracle c.location c.industry_name) clock)

lemma fwd_upsertOne {s : List Combination} {c : Combination}
    (h : CompletedHasResultsCount s) (hc : c.status = Status.pending) :
    CompletedHasResultsCount (upsertOne s c) := by
  intro e he hst
  rw [upsertOne] at he
  by_cases hk : hasKey s c.location c.industry_name
  · rw [if_pos hk] at he
    exact h e he hst
  · rw [if_neg hk] at he
    rcases List.mem_append.mp he with he2 | he2
    · exact h e he2 hst
    · rcases List.mem_singleton.mp he2 with rfl
      rw [hc] at hst
      exact absurd hst (by decide)

lemma fwd_upsertAll : ∀ {cs s : List Combination}, CompletedHasResultsCount s →
    (∀ c ∈ cs, c.status = Status.pending) → CompletedHasResultsCount (upsertAll s cs)
  | [], _, h, _ => h
  | c :: cs, s, h, hp => by
      rw [upsertAll_cons]
      exact fwd_upsertAll (fwd_upsertOne h (hp c (List.mem_cons_self _ _)))
        fun x hx => hp x (List.mem_cons_of_mem c hx)

lemma fwd_reset {s : List Combination} (h : CompletedHasResultsCount s) (now : Nat) :
    CompletedHasResultsCount (resetFailed s now) := by
  intro e he hst
  rw [resetFailed] at he
  rcases List.mem_map.mp he with ⟨d, hd, rfl⟩
  rw [resetDoc] at hst ⊢
  by_cases hdf : d.status = Status.failed
  · rw [if_pos hdf] at hst
    simp at hst
  · rw [if_neg hdf] at hst ⊢
    exact h d hd hst

/-- The forward direction holds on every reachable store, whatever the
selection options of the harvest runs. -/
lemma reachable_fwd : ∀ {b : Bool} {s : List Combination}, Reachable b s →
    CompletedHasResultsCount s := by
  intro b s h
  induction h with
  | init b2 =>
      intro d hd
      exact absurd hd (List.not_mem_nil d)
  | gen b2 L T now f s2 hs ih =>
      by_cases hskip : s2.length = L.length * employeeRangesList.length * T.length
      · rw [generate_fst_skip hskip]
        exact ih
      · rw [generate_combinations_fst _ _ _ _ _ hskip]
        exact fwd_upsertAll ih fun c hc => (mem_genCombos_fields (mem_surviving_chunks hc)).1
  | reset b2 s2 now hs ih => exact fwd_reset ih now
  | runDefault b2 s2 lo io li oracle clock hs ih => exact fwd_handleLoop _ _ _ ih
  | runAny s2 st lo io li oracle clock hs ih => exact fwd_handleLoop _ _ _ ih

lemma uniq_upsertOne {s : List Combination} {c : Combination} (h : UniqueKeys s) :
    UniqueKeys (upsertOne s c) := by
  rw [upsertOne]
  by_cases hk : hasKey s c.location c.industry_name
  · rwa [if_pos hk]
  · rw [if_neg hk]
    rw [UniqueKeys, List.pairwise_append]
    refine ⟨h, List.pairwise_singleton _ _, ?_⟩
    intro a ha b hb
    rcases List.mem_singleton.mp hb with rfl
    intro hcon
    exact hk (List.any_eq_true.mpr ⟨a, ha, matchesKey_comboKey.mpr hcon⟩)

lemma uniq_upsertAll : ∀ {cs s : List Combination}, UniqueKeys s →
    UniqueKeys (upsertAll s cs)
  | [], _, h => h
  | c :: cs, s, h => by
      rw [upsertAll_cons]
      exact uniq_upsertAll (uniq_upsertOne h)

lemma uniq_update {s : List Combination} (l i : String) (st : Status) (rc : Option Nat)
    (now : Nat) (h : UniqueKeys s) :
    UniqueKeys (update_combination_status s l i st rc now) := by
  induction s with
  | nil => simpa [update_combination_status] using h
  | cons c rest ih =>
      rcases List.pairwise_cons.mp h with ⟨hhead, htail⟩
      by_cases hm : matchesKey l i c
      · rw [update_combination_status, if_pos hm]
        exact List.pairwise_cons.mpr ⟨fun a ha => hhead a ha, htail⟩
      · rw [update_combination_status, if_neg (by simpa using hm)]
        refine List.pairwise_cons.mpr ⟨?_, ih htail⟩
        intro a ha
        rcases mem_update ha with ha2 | ⟨d, hd, _, rfl⟩
        · exact hhead a ha2
        · exact hhead d hd

lemma uniq_driverStep {s : List Combination} (h : UniqueKeys s) (c : Combination)
    (r : SearchResult) (clock : Nat) : UniqueKeys (driverStep s c r clock) := by
  cases r with
  | ok n =>
      show UniqueKeys (update_combination_status
        (update_combination_status s c.location c.industry_name .in_progress none clock)
        c.location c.industry_name .completed (some n) (clock + 1))
      exact uniq_update _ _ _ _ _ (uniq_update _ _ _ _ _ h)
  | err =>
      show UniqueKeys (update_combination_status (update_combination_status
        (update_combination_status s c.location c.industry_name .in_progress none clock)
        c.location c.industry_name .failed none (clock + 1)) c.location c.industry_name
        .failed none (clock + 2))
      exact uniq_update _ _ _ _ _ (uniq_update _ _ _ _ _ (uniq_update _ _ _ _ _ h))

lemma uniq_handleLoop {oracle : String → String → SearchResult} :
    ∀ (items s : List Combination) (clock : Nat),
      UniqueKeys s → UniqueKeys (handleLoop oracle s items clock)
  | [], _, _, h => h
  | c :: rest, s, clock, h =>
      uniq_handleLoop rest (driverStep s c (oracle c.location c.industry_name) clock)
        (clock + 3) (uniq_driverStep h c (oracle c.location c.industry_name) clock)

lemma comboKey_resetDoc (now : Nat) (c : Combination) :
    comboKey (resetDoc now c) = comboKey c := by
  rw [resetDoc]
  by_cases h : c.status = Status.failed
  · rw [if_pos h]
    rfl
  · rw [if_neg h]

lemma uniq_reset {s : List Combination} (h : UniqueKeys s) (now : Nat) :
    UniqueKeys (resetFailed s now) := by
  rw [resetFailed, UniqueKeys]
  refine List.Pairwise.map _ ?_ h
  intro a b hab
  rw [comboKey_resetDoc, comboKey_resetDoc]
  exact hab

lemma keyRcNone_update_none {s : List Combination} {k1 k2 : String} (l i : String)
    (st : Status) (now : Nat) (h : KeyRcNone s k1 k2) :
    KeyRcNone (update_combination_status s l i st none now) k1 k2 := by
  intro e he h1 h2
  rcases mem_update he with he2 | ⟨d, hd, hm, rfl⟩
  · exact h e he2 h1 h2
  · simpa [applySet] using h d hd (by simpa [applySet] using h1) (by simpa [applySet] using h2)

lemma keyRcNone_update_other {s : List Combination} {k1 k2 l i : String} {st : Status}
    {rc : Option Nat} {now : Nat} (h : KeyRcNone s k1 k2) (hne : ¬(l = k1 ∧ i = k2)) :
    KeyRcNone (update_combination_status s l i st rc now) k1 k2 := by
  intro e he h1 h2
  rcases mem_update he with he2 | ⟨d, hd, hm, rfl⟩
  · exact h e he2 h1 h2
  · rcases matchesKey_true_iff.mp hm with ⟨hl, hi⟩
    simp only [applySet] at h1 h2
    exact absurd ⟨hl.symm.trans h1, hi.symm.trans h2⟩ hne

lemma keyRcNone_driverStep {s : List Combination} {c : Combination} {k1 k2 : String}
    (h : KeyRcNone s k1 k2) (hne : ¬(c.location = k1 ∧ c.industry_name = k2))
    (r : SearchResult) (clock : Nat) : KeyRcNone (driverStep s c r clock) k1 k2 := by
  cases r with
  | ok n =>
      show KeyRcNone (update_combination_status
        (update_combination_status s c.location c.industry_name .in_progress none clock)
        c.location c.industry_name .completed (some n) (clock + 1)) k1 k2
      exact keyRcNone_update_other (keyRcNone_update_other h hne) hne
  | err =>
      show KeyRcNone (update_combination_status (update_combination_status
        (update_combination_status s c.location c.industry_name .in_progress none clock)
        c.location c.industry_name .failed none (clock + 1)) c.location c.industry_name
        .failed none (clock + 2)) k1 k2
      exact keyRcNone_update_other (keyRcNone_update_other (keyRcNone_update_other h hne) hne)
        hne

lemma iff_update_completed {s : List Combination} (l i : String) (n : Nat) (now : Nat)
    (h : ResultsCountIffCompleted s) :
    ResultsCountIffCompleted
      (update_combination_status s l i Status.completed (some n) now) := by
  intro e he
  rcases mem_update he with he2 | ⟨d, hd, hm, rfl⟩
  · exact h e he2
  · simp [applySet]

lemma iff_update_none {s : List Combination} {l i : String} (st : Status) (now : Nat)
    (h : ResultsCountIffCompleted s) (hrc : KeyRcNone s l i)
    (hst : ¬st = Status.completed) :
    ResultsCountIffCompleted (update_combination_status s l i st none now) := by
  intro e he
  rcases mem_update he with he2 | ⟨d, hd, hm, rfl⟩
  · exact h e he2
  · rcases matchesKey_true_iff.mp hm with ⟨hl, hi⟩
    have hdrc : d.results_count = none := hrc d hd hl hi
    simp [applySet, hdrc, hst]

lemma iff_driverStep {s : List Combination} {c : Combination}
    (h : ResultsCountIffCompleted s) (hrc : KeyRcNone s c.location c.industry_name)
    (r : SearchResult) (clock : Nat) :
    ResultsCountIffCompleted (driverStep s c r clock) := by
  cases r with
  | ok n =>
      show ResultsCountIffCompleted (update_combination_status
        (update_combination_status s c.location c.industry_name .in_progress none clock)
        c.location c.industry_name .completed (some n) (clock + 1))
      exact iff_update_completed _ _ _ _ (iff_update_none Status.in_progress clock h hrc (by decide))
  | err =>
      show ResultsCountIffCompleted (update_combination_status (update_combination_status
        (update_combination_status s c.location c.industry_name .in_progress none clock)
        c.location c.industry_name .failed none (clock + 1)) c.location c.industry_name
        .failed none (clock + 2))
      have h1 := iff_update_none Status.in_progress clock h hrc (by decide)
      have hrc1 := keyRcNone_update_none c.location c.industry_name Status.in_progress clock hrc
      have h2 := iff_update_none Status.failed (clock + 1) h1 hrc1 (by decide)
      have hrc2 := keyRcNone_update_none c.location c.industry_name Status.failed (clock + 1)
        hrc1
      exact iff_update_none Status.failed (clock + 2) h2 hrc2 (by decide)

lemma iff_handleLoop {oracle : String → String → SearchResult} :
    ∀ (items s : List Combination) (clock : Nat),
      ResultsCountIffCompleted s →
      (∀ c ∈ items, KeyRcNone s c.location c.industry_name) →
      (items.map comboKey).Pairwise (fun a b => a ≠ b) →
      ResultsCountIffCompleted (handleLoop oracle s items clock)
  | [], _, _, h, _, _ => h
  | c :: rest, s, clock, h, hrc, hkeys => by
      rw [handleLoop]
      have hkeys2 : (comboKey c :: rest.map comboKey).Pairwise (fun a b => a ≠ b) := by
        simpa using hkeys
      have hpc := List.pairwise_cons.mp hkeys2
      refine iff_handleLoop rest _ _ ?_ ?_ hpc.2
      · exact iff_driverStep h (hrc c (List.mem_cons_self _ _)) _ _
      · intro x hx
        refine keyRcNone_driverStep (hrc x (List.mem_cons_of_mem c hx)) ?_ _ _
        intro hcon
        exact hpc.1 (comboKey x) (List.mem_map_of_mem comboKey hx)
          (by simp [comboKey, hcon.1, hcon.2])

/-- Under the unique index, two documents of the store with the same key
are the same document. -/
lemma uniqueKeys_eq_of_same_key {s : List Combination} (h : UniqueKeys s)
    {c d : Combination} (hc : c ∈ s) (hd : d ∈ s) (hk : comboKey c = comboKey d) :
    c = d := by
  induction s with
  | nil => exact absurd hc (List.not_mem_nil c)
  | cons a rest ih =>
      rcases List.pairwise_cons.mp h with ⟨hhead, htail⟩
      rcases List.mem_cons.mp hc with rfl | hc2
      · rcases List.mem_cons.mp hd with rfl | hd2
        · rfl
        · exact absurd hk (hhead d hd2)
      · rcases List.mem_cons.mp hd with rfl | hd2
        · exact absurd hk.symm (hhead c hc2)
        · exact ih htail hc2 hd2

/-- A default selection (`pending`/`failed`) only picks keys whose
document carries no `results_count` — provided the invariant holds. -/
lemma select_default_keyRcNone {s : List Combination} (hu : UniqueKeys s)
    (hinv : ResultsCountIffCompleted s) {lo io : Option String} {li : Option Int}
    {c : Combination} (hc : c ∈ selectCombinations s none lo io li) :
    KeyRcNone s c.location c.industry_name := by
  rcases mem_select hc with ⟨hcs, hq⟩
  have hst := matchesQuery_status_none hq
  intro d hd h1 h2
  have hdc : d = c := uniqueKeys_eq_of_same_key hu hd hcs (by simp [comboKey, h1, h2])
  subst hdc
  have hnc : ¬d.status = Status.completed := by
    rcases hst with h3 | h3 <;> simp [h3]
  cases hco : d.results_count with
  | none => rfl
  | some n => exact absurd ((hinv d hcs).mp (by simp [hco])) hnc

lemma select_keys_pairwise {s : List Combination} (hu : UniqueKeys s) (st : Option Status)
    (lo io : Option String) (li : Option Int) :
    ((selectCombinations s st lo io li).map comboKey).Pairwise (fun a b => a ≠ b) :=
  List.pairwise_map.mpr (List.Pairwise.sublist (select_sublist s st lo io li) hu)

lemma iff_upsertOne {s : List Combination} {c : Combination}
    (h : ResultsCountIffCompleted s) (hc1 : c.status = Status.pending)
    (hc2 : c.results_count = none) : ResultsCountIffCompleted (upsertOne s c) := by
  intro e he
  rw [upsertOne] at he
  by_cases hk : hasKey s c.location c.industry_name
  · rw [if_pos hk] at he
    exact h e he
  · rw [if_neg hk] at he
    rcases List.mem_append.mp he with he2 | he2
    · exact h e he2
    · rcases List.mem_singleton.mp he2 with rfl
      simp [hc1, hc2]

lemma iff_upsertAll : ∀ {cs s : List Combination}, ResultsCountIffCompleted s →
    (∀ c ∈ cs, c.status = Status.pending ∧ c.results_count = none) →
    ResultsCountIffCompleted (upsertAll s cs)
  | [], _, h, _ => h
  | c :: cs, s, h, hp => by
      rw [upsertAll_cons]
      exact iff_upsertAll
        (iff_upsertOne h (hp c (List.mem_cons_self _ _)).1 (hp c (List.mem_cons_self _ _)).2)
        fun x hx => hp x (List.mem_cons_of_mem c hx)

lemma iff_reset {s : List Combination} (h : ResultsCountIffCompleted s) (now : Nat) :
    ResultsCountIffCompleted (resetFailed s now) := by
  intro e he
  rw [resetFailed] at he
  rcases List.mem_map.mp he with ⟨d, hd, rfl⟩
  rw [resetDoc]
  by_cases hdf : d.status = Status.failed
  · rw [if_pos hdf]
    have hnone : d.results_count = none := by
      cases hco : d.results_count with
      | none => rfl
      | some n =>
          have hcomp := (h d hd).mp (by simp [hco])
          rw [hdf] at hcomp
          exact absurd hcomp (by decide)
    simp [hnone]
  · rw [if_neg hdf]
    exact h d hd

/-- Under default harvest selection every reachable store has unique
keys and satisfies the full iff invariant. -/
lemma reachable_strong : ∀ {b : Bool} {s : List Combination}, Reachable b s → b = true →
    UniqueKeys s ∧ ResultsCountIffCompleted s := by
  intro b s h
  induction h with
  | init b2 =>
      intro _
      exact ⟨List.Pairwise.nil, fun d hd => absurd hd (List.not_mem_nil d)⟩
  | gen b2 L T now f s2 hs ih =>
      intro hb
      rcases ih hb with ⟨hu, hi⟩
      by_cases hskip : s2.length = L.length * employeeRangesList.length * T.length
      · rw [generate_fst_skip hskip]
        exact ⟨hu, hi⟩
      · rw [generate_combinations_fst _ _ _ _ _ hskip]
        exact ⟨uniq_upsertAll hu,
          iff_upsertAll hi fun c hc => mem_genCombos_fields (mem_surviving_chunks hc)⟩
  | reset b2 s2 now hs ih =>
      intro hb
      rcases ih hb with ⟨hu, hi⟩
      exact ⟨uniq_reset hu now, iff_reset hi now⟩
  | runDefault b2 s2 lo io li oracle clock hs ih =>
      intro hb
      rcases ih hb with ⟨hu, hi⟩
      refine ⟨uniq_handleLoop _ _ _ hu, ?_⟩
      exact iff_handleLoop _ _ _ hi (fun c hc => select_default_keyRcNone hu hi hc)
        (select_keys_pairwise hu none lo io li)
  | runAny s2 st lo io li oracle clock hs ih =>
      intro hb
      exact absurd hb (by decide)

/-- The store after generating a 1×1×1 space from empty and harvesting
its single combination successfully with count 7 (a default-selection
run). -/
def reharvestStage1 : List Combination :=
  handleLoop (fun _ _ => SearchResult.ok 7)
    ((generate_combinations ["NYC"] [("Tech", "t1")] 0 (fun _ => false) []).1)
    (selectCombinations ((generate_combinations ["NYC"] [("Tech", "t1")] 0 (fun _ => false) []).1)
      none none none none) 10

/-- The same store after a second harvest run selected with
`--status completed`, whose search raises. -/
def reharvestStage2 : List Combination :=
  handleLoop (fun _ _ => SearchResult.err) reharvestStage1
    (selectCombinations reharvestStage1 (some Status.completed) none none none) 20

/-- C2 counterexample.  The invariant "`results_count` present iff
status `completed`" fails on a store reachable through the system's own
operations: generate one combination, harvest it (`completed`,
`results_count = 7`), then re-run with `--status completed` against a
search that raises.  The `in_progress` and `failed` `$set`s never unset
`results_count`, so the document ends `failed` while still carrying
`results_count = 7`. -/
theorem results_count_iff_completed_cex :
    Reachable false reharvestStage2 ∧
    ∃ d ∈ reharvestStage2, d.results_count.isSome = true ∧ ¬d.status = Status.completed := by
  constructor
  · exact Reachable.runAny _ _ _ _ _ _ _
      (Reachable.runDefault false _ _ _ _ _ _
        (Reachable.gen false _ _ _ _ _ (Reachable.init false)))
  · decide

/-- C2 amended.  The direction "`completed` implies `results_count`
present" holds on every reachable store, whatever selection options the
harvest runs use; the full iff holds on every store reachable while
harvest runs select with the default `pending`/`failed` status filter —
re-harvesting `completed` combinations (the `--status completed`
option) is exactly what breaks the converse direction, as the
counterexample shows. -/
theorem results_count_iff_completed_amended :
    (∀ (b : Bool) (s : List Combination), Reachable b s → CompletedHasResultsCount s) ∧
    (∀ s : List Combination, Reachable true s → ResultsCountIffCompleted s) :=
  ⟨fun _ _ h => reachable_fwd h, fun _ h => (reachable_strong h rfl).2⟩

/-- Witness for C2 (amended): the invariant holds after one generation
run. -/
theorem results_count_iff_completed_amended_witness :
    ResultsCountIffCompleted
      ((generate_combinations ["NYC"] [("Tech", "t1")] 0 (fun _ => false) []).1) :=
  results_count_iff_completed_amended.2 _
    (Reachable.gen true ["NYC"] [("Tech", "t1")] 0 (fun _ => false) [] (Reachable.init true))

/-! ## C10 — invalid ids never escape the by-id lookup -/

/-- C10.  For every identifier that is not a syntactically valid object
id, `Organization.get_by_id` returns `None` (the bare `except` swallows
the `InvalidId` raise), so the detail, update and delete endpoints all
answer with the structured 404 response, and neither update nor delete
touches the collection. -/
theorem invalid_id_not_found (orgs : List OrgDoc) (org_id data : String)
    (h : isValidObjectId org_id = false) :
    Organization.get_by_id orgs org_id = none ∧
    detailView_get orgs org_id = ApiResponse.notFound ∧
    detailView_put orgs org_id data = (ApiResponse.notFound, orgs) ∧
    detailView_delete orgs org_id = (ApiResponse.notFound, orgs) := by
  have hg : Organization.get_by_id orgs org_id = none := by
    simp [Organization.get_by_id, h]
  exact ⟨hg, by simp [detailView_get, hg], by simp [detailView_put, hg],
    by simp [detailView_delete, hg]⟩

/-- Witness for C10 at a concrete malformed id and non-empty
collection. -/
theorem invalid_id_not_found_witness :
    Organization.get_by_id [⟨"0123456789abcdef01234567", "a1", "p"⟩] "not-an-objectid" = none ∧
    detailView_get [⟨"0123456789abcdef01234567", "a1", "p"⟩] "not-an-objectid"
      = ApiResponse.notFound ∧
    detailView_put [⟨"0123456789abcdef01234567", "a1", "p"⟩] "not-an-objectid" "newdata"
      = (ApiResponse.notFound, [⟨"0123456789abcdef01234567", "a1", "p"⟩]) ∧
    detailView_delete [⟨"0123456789abcdef01234567", "a1", "p"⟩] "not-an-objectid"
      = (ApiResponse.notFound, [⟨"0123456789abcdef01234567", "a1", "p"⟩]) :=
  invalid_id_not_found [⟨"0123456789abcdef01234567", "a1", "p"⟩] "not-an-objectid" "newdata"
    (by decide)
